import Mathlib

/-!
# Verification of the grants-ingest email-preparation pipelines

A shallow embedding of the `PrepareFFISEmail` Lambda handler (and the
variant implementation found in the second copy of the file) together
with the URL-extraction pipeline of `EnqueueFFISDownload`, over which we
verify the behavioural claims of the specification.

Byte content (email bodies, object keys, header values) is modelled as
`List Char`, written `Str`.  Go standard-library collaborators
(`net/mail` parsing, `strings.Contains`, the AWS S3 client) are modelled
as executable Lean functions with the semantics the handlers rely on.
Side effects (S3 reads and writes, queue sends, metric emission) are
collected in an explicit effect trace.
-/

/-- Byte/character content, the model of Go `[]byte` / `string`. -/
abbrev Str := List Char

/-- A Lambda invocation context: the only aspect the handlers observe is
whether the context has been canceled. -/
structure Ctx where
  canceled : Bool
deriving DecidableEq, Repr

/-- Environment configuration for the `PrepareFFISEmail` handler:
the allow-listed sender substring (`FFIS_DIGEST_EMAIL_ADDRESS`) and the
destination bucket (`GRANTS_SOURCE_DATA_BUCKET_NAME`). -/
structure Env where
  validFFISEmail : Str
  sourceDataBucket : Str
deriving DecidableEq, Repr

/-- Errors that flow through the handler, mirroring the Go error values:
SDK/context errors, `net/mail` parse errors, the handler's own
`errors.New("Invalid email address")`, put failures, and the wrapping
performed by `log.Errorf` (which wraps a cause with a message, so the
cause stays recoverable from the chain as with `errors.Is`). -/
inductive GoErr where
  | canceled
  | notFound (bucket key : Str)
  | accessDenied (bucket key : Str)
  | transient (msg : Str)
  | readErr (msg : Str)
  | mailParseErr
  | addrParseErr
  | dateParseErr
  | invalidEmailAddress
  | putFailure (msg : Str)
  | wrapped (msg : Str) (cause : GoErr)
deriving DecidableEq, Repr

/-- Model of `errors.Is(err, context.Canceled)`: walk the wrap chain looking for
the cancellation sentinel. -/
def GoErr.chainCanceled : GoErr → Bool
  | .canceled => true
  | .wrapped _ cause => cause.chainCanceled
  | _ => false

/-- The S3 service model: what a `GetObject` on a bucket/key returns, and
whether a `PutObject` on a bucket/key fails.  (S3 put outcomes do not
depend on the uploaded body.) -/
structure S3Svc where
  getSpec : Str → Str → Except GoErr Str
  putSpec : Str → Str → Option GoErr

/-- One S3 bucket-notification record, as consumed by the handler
(`record.S3.Bucket.Name`, `record.S3.Object.Key`, `record.EventName`). -/
structure S3EventRecord where
  bucket : Str
  key : Str
  eventName : Str
deriving DecidableEq, Repr

/-- The input of the AWS SDK `PutObject` call as the handler constructs
it: bucket, key, body and the server-side-encryption setting. -/
structure PutObjectInput where
  bucket : Str
  key : Str
  body : Str
  serverSideEncryption : Str
deriving DecidableEq, Repr

/-- Observable side effects of an invocation: an S3 `GetObject` call, the
start of mail parsing, an S3 `PutObject` call (with whether it
succeeded), an SQS send, and a metric emission. -/
inductive Effect where
  | fetch (bucket key : Str)
  | parse
  | put (input : PutObjectInput) (succeeded : Bool)
  | queueSend (body : Str)
  | metric (name : Str)
deriving DecidableEq, Repr

/-- The SDK `GetObject` call: a canceled context surfaces the
cancellation error at this I/O boundary; otherwise the service decides. -/
def goGetObject (ctx : Ctx) (svc : S3Svc) (bucket key : Str) : Except GoErr Str :=
  if ctx.canceled then .error .canceled else svc.getSpec bucket key

/-- The SDK `PutObject` call: a canceled context surfaces the
cancellation error at this I/O boundary; otherwise the service decides. -/
def goPutObject (ctx : Ctx) (svc : S3Svc) (input : PutObjectInput) : Option GoErr :=
  if ctx.canceled then some .canceled else svc.putSpec input.bucket input.key

/-- Go `strings.Contains(s, substr)`, searching for `sub` as a prefix of
each successive suffix of `s` (the empty substring is always found). -/
def containsAux (sub : Str) : Str → Bool
  | [] => sub.isEmpty
  | c :: t => sub.isPrefixOf (c :: t) || containsAux sub t

/-- Go `strings.Contains(s, substr)`. -/
def goContains (s sub : Str) : Bool := containsAux sub s

/-- ASCII whitespace, for the header/value trimming done by the parsers. -/
def isWS (c : Char) : Bool := c = ' ' || c = '\t' || c = '\r' || c = '\n'

/-- Drop leading whitespace. -/
def trimL (s : Str) : Str := s.dropWhile isWS

/-- Trim whitespace on both sides. -/
def trimBoth (s : Str) : Str := (trimL (trimL s.reverse).reverse)

/-- Split a character list on a separator character (as Go's
`strings.Split` does: always at least one piece). -/
def splitOnChar (sep : Char) : Str → List Str
  | [] => [[]]
  | c :: t =>
    let r := splitOnChar sep t
    if c = sep then [] :: r
    else
      match r with
      | [] => [[c]]
      | h :: t2 => (c :: h) :: t2

/-- Split at the first occurrence of a character, returning the pieces
before and after it, or `none` when the character does not occur. -/
def splitFirst (sep : Char) : Str → Option (Str × Str)
  | [] => none
  | c :: t =>
    if c = sep then some ([], t)
    else
      match splitFirst sep t with
      | none => none
      | some (a, b) => some (c :: a, b)

/-- Decimal digit value. -/
def digitVal (c : Char) : Option Nat :=
  if '0' ≤ c && c ≤ '9' then some (c.toNat - 48) else none

/-- Parse a non-empty all-digit string as a natural number (the model of
the numeric field parsing in Go's date parser). -/
def parseNatChars (s : Str) : Option Nat :=
  match s with
  | [] => none
  | _ =>
    s.foldl (fun acc c =>
      match acc, digitVal c with
      | some n, some d => some (n * 10 + d)
      | _, _ => none) (some 0)

/-- Case-insensitive equality of header names, as `textproto`
canonicalisation gives `mail.Header.Get`. -/
def eqCI (a b : Str) : Bool := a.map Char.toLower = b.map Char.toLower

/-- A parsed mail message: ordered header fields plus the body lines. -/
structure GoMessage where
  header : List (Str × Str)
  body : List Str
deriving DecidableEq, Repr

/-- Model of `mail.Header.Get`: first-match, case-insensitive lookup; the empty
string when the header is absent. -/
def headerGet (h : List (Str × Str)) (name : Str) : Str :=
  match h.find? (fun kv => eqCI kv.1 name) with
  | some kv => kv.2
  | none => []

/-- Header-section parsing as `textproto.ReadMIMEHeader` behaves for
`mail.ReadMessage`: fields end at the first empty line; a continuation
line (leading space or tab) extends the previous field; a field line
without a colon, a continuation with no preceding field, or running out
of input before the blank separator is a parse error. -/
def parseHeaderLines : List Str → List (Str × Str) → Except Unit (List (Str × Str) × List Str)
  | [], _ => .error ()
  | line :: rest, acc =>
    if line = [] then .ok (acc.reverse, rest)
    else if isWS line.headI then
      match acc with
      | [] => .error ()
      | (k, v) :: t => parseHeaderLines rest ((k, v ++ ' ' :: trimBoth line) :: t)
    else
      match splitFirst ':' line with
      | none => .error ()
      | some (k, v) => parseHeaderLines rest ((k, trimL v) :: acc)

/-- Go `mail.ReadMessage`: split the input into lines (tolerating CRLF by
stripping a trailing CR), parse the header section, and keep the
remaining lines as the body. -/
def mailReadMessage (s : Str) : Except Unit GoMessage :=
  let lines := (splitOnChar '\n' s).map (fun l =>
    match l.reverse with
    | '\r' :: t => t.reverse
    | _ => l)
  match parseHeaderLines lines [] with
  | .error () => .error ()
  | .ok (h, body) => .ok ⟨h, body⟩

/-- A parsed single mail address: display name and addr-spec, as
`mail.ParseAddress` returns them. -/
structure GoAddress where
  name : Str
  address : Str
deriving DecidableEq, Repr

/-- Go `mail.ParseAddress` on the inputs this handler meets: an optional
display name followed by an angle-bracketed addr-spec (`Name <a@b>`),
else a bare addr-spec.  The addr-spec must contain `@`; trailing content
after `>` or a comma in a bare spec (several addresses) is an error. -/
def ParseAddress (s : Str) : Except Unit GoAddress :=
  let t := trimBoth s
  match splitFirst '<' t with
  | some (namePart, rest) =>
    match splitFirst '>' rest with
    | none => .error ()
    | some (addr, afterGt) =>
      if trimBoth afterGt ≠ [] then .error ()
      else if addr.contains '@' then .ok ⟨trimBoth namePart, addr⟩
      else .error ()
  | none =>
    if t = [] then .error ()
    else if t.contains ',' then .error ()
    else if t.contains '@' then .ok ⟨[], t⟩
    else .error ()

/-- Month-name lookup of the RFC 5322 date formats `mail.ParseDate`
accepts. -/
def monthNum (m : Str) : Option Nat :=
  if m = "Jan".data then some 1
  else if m = "Feb".data then some 2
  else if m = "Mar".data then some 3
  else if m = "Apr".data then some 4
  else if m = "May".data then some 5
  else if m = "Jun".data then some 6
  else if m = "Jul".data then some 7
  else if m = "Aug".data then some 8
  else if m = "Sep".data then some 9
  else if m = "Oct".data then some 10
  else if m = "Nov".data then some 11
  else if m = "Dec".data then some 12
  else none

/-- Go `mail.ParseDate` restricted to the calendar date it yields:
an optional `Dow,` prefix, then day, month name, year, and a time field.
Returns `(year, month, day)`; malformed fields are a parse error. -/
def ParseDate (s : Str) : Except Unit (Nat × Nat × Nat) :=
  let afterDow :=
    match splitOnChar ',' s with
    | [_, rest] => rest
    | _ => s
  match (splitOnChar ' ' afterDow).filter (fun f => f ≠ []) with
  | day :: mon :: year :: _time :: _zone =>
    match parseNatChars day, monthNum mon, parseNatChars year with
    | some d, some m, some y =>
      if 1 ≤ d && d ≤ 31 then .ok (y, m, d) else .error ()
    | _, _, _ => .error ()
  | _ => .error ()

/-- The destination key built by `fmt.Sprintf("sources/%d/%d/%d/ffis/raw.eml", ...)`:
decimal rendering with no zero padding. -/
def s3ObjectKeyFor (year month day : Nat) : Str :=
  "sources/".data ++ (Nat.repr year).data ++ "/".data ++ (Nat.repr month).data
    ++ "/".data ++ (Nat.repr day).data ++ "/ffis/raw.eml".data

/-- Embedding of `processHeader` from `cmd/PrepareFFISEmail/handler.go`: parse the
`From` header as a single address, then the `Date` header as a calendar
date, and derive the destination object key; each parse failure is
returned as the corresponding error. -/
def processHeader (h : List (Str × Str)) : Except GoErr (Str × Str) :=
  match ParseAddress (headerGet h "From".data) with
  | .error _ => .error .addrParseErr
  | .ok mailFrom =>
    match ParseDate (headerGet h "Date".data) with
    | .error _ => .error .dateParseErr
    | .ok (y, m, d) => .ok (mailFrom.address, s3ObjectKeyFor y m d)

/-- Embedding of `UploadS3Object` from `cmd/PrepareFFISEmail/s3.go`: one `PutObject`
call on the given bucket and key with the given bytes, always under
`ServerSideEncryption: AES256`; the put error, if any, is returned
unchanged.  The traced effect records the exact input and outcome. -/
def UploadS3Object (ctx : Ctx) (svc : S3Svc) (bucket key body : Str) :
    Option GoErr × List Effect :=
  let input : PutObjectInput := ⟨bucket, key, body, "AES256".data⟩
  let res := goPutObject ctx svc input
  (res, [.put input res.isNone])

/-- An `io.Reader` over in-memory bytes: its unread remainder.
`io.ReadAll` returns everything remaining and leaves the reader at EOF. -/
def readAll (r : Str) : Str × Str := (r, [])

/-- Embedding of `processEmail` from `cmd/PrepareFFISEmail/handler.go` (the reader
variant): read all bytes from `r`, parse them as a mail message, extract
address and destination key via `processHeader`, check the sender
against `env.ValidFFISEmail` with `strings.Contains`, and upload — the
upload is handed the same reader `r`, already at EOF after `io.ReadAll`,
so the uploaded body is the reader's (empty) remainder.  Each failure is
wrapped by `log.Errorf` with the handler's message. -/
def processEmailA (ctx : Ctx) (env : Env) (svc : S3Svc) (r : Str) :
    Option GoErr × List Effect :=
  let (b, r2) := readAll r
  match mailReadMessage b with
  | .error _ => (some (.wrapped "Error parsing email data from S3".data .mailParseErr), [.parse])
  | .ok email =>
    match processHeader email.header with
    | .error e => (some (.wrapped "Error extracting data from email header".data e), [.parse])
    | .ok (address, s3ObjectKey) =>
      if goContains address env.validFFISEmail then
        let (rest, _) := readAll r2
        let (res, putEffs) := UploadS3Object ctx svc env.sourceDataBucket s3ObjectKey rest
        match res with
        | some e =>
          (some (.wrapped "Error uploading S3 object to Grants source data bucket".data e),
            .parse :: putEffs)
        | none => (none, .parse :: putEffs ++ [.metric "email.moved".data])
      else
        (some (.wrapped "Origin email address does not match FFIS address".data .invalidEmailAddress),
          [.parse])

/-- Embedding of `processEmail` from the second copy of the handler (the unnamed source,
the bytes variant): parse the bytes as a mail message, parse the `From`
address, check it against `env.ValidFFISEmail`, then parse the `Date`
header, derive the key and upload the full original bytes `b`. -/
def processEmailB (ctx : Ctx) (env : Env) (svc : S3Svc) (b : Str) :
    Option GoErr × List Effect :=
  match mailReadMessage b with
  | .error _ => (some (.wrapped "Error parsing email data from S3".data .mailParseErr), [.parse])
  | .ok email =>
    match ParseAddress (headerGet email.header "From".data) with
    | .error _ => (some (.wrapped "Error parsing email address".data .addrParseErr), [.parse])
    | .ok mailFrom =>
      if goContains mailFrom.address env.validFFISEmail then
        match ParseDate (headerGet email.header "Date".data) with
        | .error _ =>
          (some (.wrapped "Error parsing date for S3 object key".data .dateParseErr), [.parse])
        | .ok (y, m, d) =>
          let (res, putEffs) := UploadS3Object ctx svc env.sourceDataBucket (s3ObjectKeyFor y m d) b
          match res with
          | some e =>
            (some (.wrapped "Error uploading prepared grant opportunity to DynamoDB".data e),
              .parse :: putEffs)
          | none => (none, .parse :: putEffs ++ [.metric "email.moved".data])
      else
        (some (.wrapped "Origin email address does not match FFIS address".data .invalidEmailAddress),
          [.parse])

/-- The body of one record task of `handleS3EventWithConfig`
(`handler.go`): `GetObject` on the record's bucket and key — any
retrieval error is returned unchanged, with no parse and no write —
then `processEmail` on the response body. -/
def handleRecordA (ctx : Ctx) (env : Env) (svc : S3Svc) (rec : S3EventRecord) :
    Option GoErr × List Effect :=
  match goGetObject ctx svc rec.bucket rec.key with
  | .error e => (some e, [.fetch rec.bucket rec.key])
  | .ok content =>
    let (res, effs) := processEmailA ctx env svc content
    (res, .fetch rec.bucket rec.key :: effs)

/-- One spawned task of the `multierror.Group`: run the record body and,
via the deferred function, emit the `email.failed` metric when it
returns an error. -/
def recordTask (ctx : Ctx) (env : Env) (svc : S3Svc) (rec : S3EventRecord) :
    Option GoErr × List Effect :=
  let res := handleRecordA ctx env svc rec
  match res.1 with
  | some e => (some e, res.2 ++ [.metric "email.failed".data])
  | none => (none, res.2)

/-- Embedding of `handleS3EventWithConfig` from `cmd/PrepareFFISEmail/handler.go`:
one task per record collected by `multierror.Group`; `ErrorOrNil` yields
`none` exactly when no task failed, otherwise the list of the failed
tasks' errors (the aggregate preserves each error and its count). -/
def handleS3EventWithConfig (ctx : Ctx) (env : Env) (svc : S3Svc)
    (records : List S3EventRecord) : Option (List GoErr) × List Effect :=
  let results := records.map (recordTask ctx env svc)
  let errs := results.filterMap Prod.fst
  (if errs.isEmpty then none else some errs, (results.map Prod.snd).flatten)

/-- Number of individual errors held by the aggregate result
(`multierror.Error.Len`, 0 for `nil`). -/
def aggErrCount : Option (List GoErr) → Nat
  | none => 0
  | some es => es.length

/-- The successful storage writes in an effect trace. -/
def succPutCount (effs : List Effect) : Nat :=
  (effs.filter (fun e =>
    match e with
    | .put _ true => true
    | _ => false)).length

/-- The bodies of all attempted storage writes in an effect trace. -/
def putBodies (effs : List Effect) : List Str :=
  effs.filterMap (fun e =>
    match e with
    | .put input _ => some input.body
    | _ => none)

/-- The (bucket, key) targets of all attempted storage writes. -/
def putTargets (effs : List Effect) : List (Str × Str) :=
  effs.filterMap (fun e =>
    match e with
    | .put input _ => some (input.bucket, input.key)
    | _ => none)

/-- Modelled from the spec: the URL-extraction step of the
`EnqueueFFISDownload` pipeline (`handleS3Event` is not among the
provided sources; only its test is).  Per §4.5: locate the plaintext
body part (failing with `NoPlaintextPartError` when absent), collect the
matches of the configured URL pattern within it, require exactly one
match (`NoMatchesFoundError` on zero, `MultipleFoundError` on two or
more), and forward the single matched URL as the body of a queue send. -/
inductive BErr where
  | noPlaintext
  | noMatchesFound
  | multipleFound
deriving DecidableEq, Repr

/-- Modelled from the spec: a parsed message as pipeline B sees it — the
plaintext body part, when the message has one. -/
structure ParsedMessageB where
  plaintext : Option Str
deriving DecidableEq, Repr

/-- Modelled from the spec: URL extraction and enqueueing for pipeline B.
`findMatches` is the configured URL pattern's match function (the
caller-supplied regular expression applied to a body). -/
def extractAndEnqueue (findMatches : Str → List Str) (msg : ParsedMessageB) :
    Except BErr Str × List Effect :=
  match msg.plaintext with
  | none => (.error .noPlaintext, [])
  | some body =>
    match findMatches body with
    | [] => (.error .noMatchesFound, [])
    | [url] => (.ok url, [.queueSend url])
    | _ => (.error .multipleFound, [])

/-- The email fixture of the handler tests (`RECEIVED_EMAIL_TEMPLATE`). -/
def emailFixture : Str :=
  "From: FFIS <fake@ffis.org>\nDate: Mon, 24 Apr 2023 17:42:13 -0500\nSubject: Competitive Grant Update 23-17\nTo: <nobody@nowhere.org>\n\n\nThis is a test\n".data

/-- The test environment configuration. -/
def envFixture : Env :=
  ⟨"fake@ffis.org".data, "test-source-data-bucket".data⟩

/-- An S3 service on which every get yields the fixture email and every
put succeeds. -/
def svcFixture : S3Svc :=
  ⟨fun _ _ => .ok emailFixture, fun _ _ => none⟩

/-- A minimal well-formed FFIS digest email. -/
def emailSmall : Str :=
  "From: FFIS <fake@ffis.org>\nDate: Mon, 24 Apr 2023 17:42:13 -0500\n\nhi".data

/-- The parse of `emailSmall`. -/
def msgSmall : GoMessage :=
  ⟨[("From".data, "FFIS <fake@ffis.org>".data),
    ("Date".data, "Mon, 24 Apr 2023 17:42:13 -0500".data)], ["hi".data]⟩

/-- An email whose From display name contains the allow-listed address
while its addr-spec does not. -/
def emailDisplayName : Str :=
  "From: fake@ffis.org <other@nowhere.org>\nDate: Mon, 24 Apr 2023 17:42:13 -0500\n\nhi".data

/-- The parse of `emailDisplayName`. -/
def msgDisplayName : GoMessage :=
  ⟨[("From".data, "fake@ffis.org <other@nowhere.org>".data),
    ("Date".data, "Mon, 24 Apr 2023 17:42:13 -0500".data)], ["hi".data]⟩

/-- An email with both a malformed Date header and a disallowed sender
address. -/
def emailBadDateBadSender : Str :=
  "From: FFIS <fake@nowhere.org>\nDate: not a date\n\nbody\n".data


/-- A notification record as in the handler tests. -/
def recFixture : S3EventRecord :=
  ⟨"test-email-bucket".data, "ses/ffis_ingest/new/test.eml".data, "ObjectCreated:Put".data⟩

/-- An S3 service on which every get fails with not-found. -/
def svcNotFound : S3Svc :=
  ⟨fun bucket key => .error (.notFound bucket key), fun _ _ => none⟩

/-- A match function standing for the configured URL pattern, finding
one URL in any body. -/
def findMatchesFixture : Str → List Str :=
  fun _ => ["https://mcusercontent.com/123456/files/file-01.xlsx".data]


/-- Characterisation of `List.isPrefixOf` by an explicit leftover. -/
theorem isPrefixOf_exists (l₁ l₂ : Str) :
    l₁.isPrefixOf l₂ = true ↔ ∃ post, l₂ = l₁ ++ post := by
  induction l₁ generalizing l₂ with
  | nil => simp [List.isPrefixOf]
  | cons a as ih =>
    cases l₂ with
    | nil => simp [List.isPrefixOf]
    | cons b bs =>
      simp only [List.isPrefixOf, Bool.and_eq_true, beq_iff_eq, ih, List.cons_append,
        List.cons.injEq]
      constructor
      · rintro ⟨rfl, post, rfl⟩; exact ⟨post, rfl, rfl⟩
      · rintro ⟨post, rfl, rfl⟩; exact ⟨rfl, post, rfl⟩

/-- Characterisation of the search loop: `sub` is found within `s`
exactly when `s` decomposes around an occurrence of `sub`. -/
theorem containsAux_exists (sub s : Str) :
    containsAux sub s = true ↔ ∃ pre post, s = pre ++ sub ++ post := by
  induction s with
  | nil =>
    simp only [containsAux, List.isEmpty_iff]
    constructor
    · rintro rfl; exact ⟨[], [], rfl⟩
    · rintro ⟨pre, post, h⟩
      rcases List.append_eq_nil.mp (List.append_eq_nil.mp h.symm).1 with ⟨-, h2⟩
      exact h2
  | cons c t ih =>
    simp only [containsAux, Bool.or_eq_true, isPrefixOf_exists, ih]
    constructor
    · rintro (⟨post, h⟩ | ⟨pre, post, rfl⟩)
      · exact ⟨[], post, by simpa using h⟩
      · exact ⟨c :: pre, post, rfl⟩
    · rintro ⟨pre, post, h⟩
      cases pre with
      | nil => exact .inl ⟨post, by simpa using h⟩
      | cons p ps =>
        rcases h with h
        simp only [List.cons_append, List.cons.injEq] at h
        exact .inr ⟨ps, post, h.2⟩

/-- Go `strings.Contains(s, sub)` is substring containment: it is true
exactly when `sub` occurs anywhere within `s`. -/
theorem goContains_exists (s sub : Str) :
    goContains s sub = true ↔ ∃ pre post, s = pre ++ sub ++ post :=
  containsAux_exists sub s

/-- Successful-put counting distributes over trace concatenation. -/
theorem succPutCount_append (a b : List Effect) :
    succPutCount (a ++ b) = succPutCount a + succPutCount b := by
  simp [succPutCount, List.filter_append]

/-- A run of the reader-variant `processEmail` performs exactly one
successful storage write when it succeeds and none when it fails. -/
theorem succPutCount_processEmailA (ctx : Ctx) (env : Env) (svc : S3Svc) (r : Str) :
    succPutCount (processEmailA ctx env svc r).2 =
      if (processEmailA ctx env svc r).1.isSome then 0 else 1 := by
  simp only [processEmailA, readAll, UploadS3Object, goPutObject]
  cases hm : mailReadMessage r with
  | error e => simp [succPutCount]
  | ok email =>
    cases hh : processHeader email.header with
    | error e => simp [hh, succPutCount]
    | ok pair =>
      obtain ⟨a, k⟩ := pair
      cases hgc : goContains a env.validFFISEmail with
      | false => simp [hh, hgc, succPutCount]
      | true =>
        cases hc : ctx.canceled with
        | true => simp [hh, hgc, hc, succPutCount]
        | false =>
          cases hp : svc.putSpec env.sourceDataBucket k with
          | none => simp [hh, hgc, hc, hp, succPutCount]
          | some e => simp [hh, hgc, hc, hp, succPutCount]

/-- A record body performs exactly one successful storage write when it
succeeds and none when it fails. -/
theorem succPutCount_handleRecordA (ctx : Ctx) (env : Env) (svc : S3Svc) (rec : S3EventRecord) :
    succPutCount (handleRecordA ctx env svc rec).2 =
      if (handleRecordA ctx env svc rec).1.isSome then 0 else 1 := by
  have key : ∀ (g : Except GoErr Str),
      succPutCount (match g with
        | .error e => (some e, [Effect.fetch rec.bucket rec.key])
        | .ok content => ((processEmailA ctx env svc content).1,
            .fetch rec.bucket rec.key :: (processEmailA ctx env svc content).2) :
          Option GoErr × List Effect).2 =
      if (match g with
        | .error e => (some e, [Effect.fetch rec.bucket rec.key])
        | .ok content => ((processEmailA ctx env svc content).1,
            .fetch rec.bucket rec.key :: (processEmailA ctx env svc content).2) :
          Option GoErr × List Effect).1.isSome then 0 else 1 := by
    intro g
    cases g with
    | error e => simp [succPutCount]
    | ok content =>
      have h := succPutCount_processEmailA ctx env svc content
      cases hr : (processEmailA ctx env svc content).1 with
      | some e => rw [hr] at h; simp [hr, succPutCount] at h ⊢; exact h
      | none => rw [hr] at h; simp [hr, succPutCount] at h ⊢; exact h
  simpa only [handleRecordA] using key (goGetObject ctx svc rec.bucket rec.key)

/-- A spawned record task performs exactly one successful storage write
when it succeeds and none when it fails. -/
theorem succPutCount_recordTask (ctx : Ctx) (env : Env) (svc : S3Svc) (rec : S3EventRecord) :
    succPutCount (recordTask ctx env svc rec).2 =
      if (recordTask ctx env svc rec).1.isSome then 0 else 1 := by
  have h := succPutCount_handleRecordA ctx env svc rec
  have key : ∀ (res : Option GoErr × List Effect),
      succPutCount res.2 = (if res.1.isSome then 0 else 1) →
      succPutCount (match res.1 with
        | some e => (some e, res.2 ++ [Effect.metric "email.failed".data])
        | none => (none, res.2) : Option GoErr × List Effect).2 =
      if (match res.1 with
        | some e => (some e, res.2 ++ [Effect.metric "email.failed".data])
        | none => (none, res.2) : Option GoErr × List Effect).1.isSome then 0 else 1 := by
    rintro ⟨r1, r2⟩ hres
    cases r1 with
    | some e => simp_all [succPutCount_append, succPutCount]
    | none => simp_all
  simpa only [recordTask] using key (handleRecordA ctx env svc rec) h

/-- The aggregate error list holds one entry per failed record. -/
theorem errs_length_countP (ctx : Ctx) (env : Env) (svc : S3Svc) (records : List S3EventRecord) :
    (records.filterMap (fun rec => (recordTask ctx env svc rec).1)).length =
      records.countP (fun rec => ((recordTask ctx env svc rec).1).isSome) := by
  induction records with
  | nil => simp
  | cons r rs ih =>
    simp only [List.filterMap_cons, List.countP_cons]
    cases hr : (recordTask ctx env svc r).1 with
    | some e => simp [hr, ih]
    | none => simp [hr, ih]

/-- The invocation trace holds one successful storage write per
succeeded record. -/
theorem succPuts_total (ctx : Ctx) (env : Env) (svc : S3Svc) (records : List S3EventRecord) :
    succPutCount ((records.map (fun rec => (recordTask ctx env svc rec).2)).flatten) =
      records.countP (fun rec => ((recordTask ctx env svc rec).1).isNone) := by
  induction records with
  | nil => simp [succPutCount]
  | cons r rs ih =>
    simp only [List.map_cons, List.flatten_cons, List.countP_cons, succPutCount_append, ih]
    have h := succPutCount_recordTask ctx env svc r
    cases hr : (recordTask ctx env svc r).1 with
    | some e => rw [hr] at h; simp [h]
    | none => rw [hr] at h; simp [h]; omega

/-- Failed and succeeded records partition the batch. -/
theorem countP_split (ctx : Ctx) (env : Env) (svc : S3Svc) (records : List S3EventRecord) :
    records.countP (fun rec => ((recordTask ctx env svc rec).1).isSome) +
      records.countP (fun rec => ((recordTask ctx env svc rec).1).isNone) = records.length := by
  induction records with
  | nil => simp
  | cons r rs ih =>
    simp only [List.countP_cons, List.length_cons]
    cases hr : (recordTask ctx env svc r).1 with
    | some e => simp; omega
    | none => simp; omega

/-- C1: for every batch of N notifications of which F records fail,
`handleS3EventWithConfig` returns a non-nil aggregate error if and only
if F ≥ 1 (nil when F = 0), the aggregate contains exactly F individual
record errors, and a successful storage write occurs for exactly the
N − F succeeding records. -/
theorem handleS3Event_aggregate_spec (ctx : Ctx) (env : Env) (svc : S3Svc)
    (records : List S3EventRecord) :
    ((handleS3EventWithConfig ctx env svc records).1 = none ↔
      records.countP (fun rec => ((recordTask ctx env svc rec).1).isSome) = 0)
    ∧ aggErrCount (handleS3EventWithConfig ctx env svc records).1 =
      records.countP (fun rec => ((recordTask ctx env svc rec).1).isSome)
    ∧ succPutCount (handleS3EventWithConfig ctx env svc records).2 =
      records.length - records.countP (fun rec => ((recordTask ctx env svc rec).1).isSome) := by
  have hlen := errs_length_countP ctx env svc records
  have hput := succPuts_total ctx env svc records
  have hsum := countP_split ctx env svc records
  simp only [handleS3EventWithConfig, List.filterMap_map, List.map_map, Function.comp_def]
  cases hE : (records.filterMap (fun rec => (recordTask ctx env svc rec).1)).isEmpty with
  | true =>
    have hnil : records.filterMap (fun rec => (recordTask ctx env svc rec).1) = [] := by
      simpa [List.isEmpty_iff] using hE
    rw [hnil] at hlen
    simp only [List.length_nil] at hlen
    simp only [hE, if_true, aggErrCount]
    refine ⟨by simp [← hlen], by omega, ?_⟩
    rw [hput]; omega
  | false =>
    have hne : records.filterMap (fun rec => (recordTask ctx env svc rec).1) ≠ [] := by
      simpa [List.isEmpty_iff] using hE
    have hpos : (records.filterMap (fun rec => (recordTask ctx env svc rec).1)).length ≠ 0 := by
      simpa [List.length_eq_zero] using hne
    simp only [hE, if_false, aggErrCount]
    refine ⟨⟨fun h => Option.noConfusion h, fun h => absurd (hlen.trans h) hpos⟩, hlen, ?_⟩
    rw [hput]; omega

/-- C6: when the invocation context is canceled, every record task stops
at its first I/O boundary and reports an error whose chain identifies
the cancellation, and the invocation-level result is a non-nil aggregate
containing exactly those cancellation errors. -/
theorem canceled_tasks_spec (ctx : Ctx) (env : Env) (svc : S3Svc)
    (records : List S3EventRecord) (hc : ctx.canceled = true) (hne : records ≠ []) :
    ∃ es, (handleS3EventWithConfig ctx env svc records).1 = some es
      ∧ es.length = records.length ∧ es ≠ []
      ∧ ∀ e ∈ es, e.chainCanceled = true := by
  have htask : ∀ rec : S3EventRecord, recordTask ctx env svc rec =
      (some .canceled, [.fetch rec.bucket rec.key, .metric "email.failed".data]) := by
    intro rec
    simp [recordTask, handleRecordA, goGetObject, hc]
  have herrs : ∀ rs : List S3EventRecord,
      (rs.map (recordTask ctx env svc)).filterMap Prod.fst =
        List.replicate rs.length GoErr.canceled := by
    intro rs
    induction rs with
    | nil => simp
    | cons r t ih =>
      simp only [List.map_cons, List.filterMap_cons, htask, List.length_cons,
        List.replicate_succ]
      simpa using ih
  have hnonempty : (List.replicate records.length GoErr.canceled).isEmpty = false := by
    cases records with
    | nil => exact absurd rfl hne
    | cons r t => simp [List.replicate_succ]
  refine ⟨List.replicate records.length GoErr.canceled, ?_, by simp, ?_, ?_⟩
  · simp only [handleS3EventWithConfig, herrs, hnonempty]
    simp
  · cases records with
    | nil => exact absurd rfl hne
    | cons r t => simp [List.replicate_succ]
  · intro e he
    rw [List.eq_of_mem_replicate he]
    rfl

/-- C7: when the storage fetch for a record fails, the record task
returns that retrieval error unchanged, the trace shows exactly one
fetch attempt, and no parsing and no write happens for the record. -/
theorem fetch_error_spec (ctx : Ctx) (env : Env) (svc : S3Svc)
    (rec : S3EventRecord) (e : GoErr)
    (hget : goGetObject ctx svc rec.bucket rec.key = .error e) :
    handleRecordA ctx env svc rec = (some e, [.fetch rec.bucket rec.key]) := by
  simp [handleRecordA, hget]

/-- C8: every storage write issued through `UploadS3Object` performs
exactly one put targeting the given bucket and key with the given
bytes, always under server-side encryption AES256, and its result is
exactly the underlying put outcome: nil if and only if the put
succeeded, and any put error returned unchanged. -/
theorem upload_put_spec (ctx : Ctx) (svc : S3Svc) (bucket key body : Str) :
    (UploadS3Object ctx svc bucket key body).1 =
      goPutObject ctx svc ⟨bucket, key, body, "AES256".data⟩
    ∧ (UploadS3Object ctx svc bucket key body).2 =
      [.put ⟨bucket, key, body, "AES256".data⟩
        ((goPutObject ctx svc ⟨bucket, key, body, "AES256".data⟩).isNone)] :=
  ⟨rfl, rfl⟩

/-- C3: for every message whose Date header parses to a calendar date,
the derived destination key is
sources/{year}/{month}/{day}/ffis/raw.eml with month and day rendered
as non-zero-padded decimal integers. -/
theorem date_key_spec (h : List (Str × Str)) (a : GoAddress) (y m d : Nat)
    (ha : ParseAddress (headerGet h "From".data) = .ok a)
    (hd : ParseDate (headerGet h "Date".data) = .ok (y, m, d)) :
    processHeader h = .ok (a.address,
      "sources/".data ++ (Nat.repr y).data ++ "/".data ++ (Nat.repr m).data
        ++ "/".data ++ (Nat.repr d).data ++ "/ffis/raw.eml".data) := by
  simp [processHeader, ha, hd, s3ObjectKeyFor]

/-- Witness for C3: the date (2023, April, 24) yields exactly the key
sources/2023/4/24/ffis/raw.eml. -/
theorem date_key_witness :
    processHeader msgSmall.header =
      .ok ("fake@ffis.org".data, "sources/2023/4/24/ffis/raw.eml".data) :=
  date_key_spec msgSmall.header ⟨"FFIS".data, "fake@ffis.org".data⟩ 2023 4 24 rfl rfl

/-- C4: for every successfully parsed sender address, the record fails
with the sender ValidationError exactly when the address does not
contain the configured allow-listed substring anywhere within it
(substring containment, not full-string equality). -/
theorem sender_validation_spec (ctx : Ctx) (env : Env) (svc : S3Svc) (b : Str)
    (msg : GoMessage) (a key : Str)
    (hm : mailReadMessage b = .ok msg)
    (hh : processHeader msg.header = .ok (a, key)) :
    ((processEmailA ctx env svc b).1 =
        some (.wrapped "Origin email address does not match FFIS address".data
          .invalidEmailAddress)
      ↔ ¬ ∃ pre post, a = pre ++ env.validFFISEmail ++ post) := by
  have hwne : ∀ e2 : GoErr,
      GoErr.wrapped "Error uploading S3 object to Grants source data bucket".data e2 ≠
        GoErr.wrapped "Origin email address does not match FFIS address".data
          GoErr.invalidEmailAddress := by
    intro e2 h
    injection h with h1 h2
    exact absurd h1 (by decide)
  simp only [processEmailA, readAll, hm, hh, UploadS3Object]
  cases hgc : goContains a env.validFFISEmail with
  | true =>
    have hex := (goContains_exists a env.validFFISEmail).mp hgc
    rw [if_pos rfl]
    cases hp : goPutObject ctx svc ⟨env.sourceDataBucket, key, [], "AES256".data⟩ with
    | some e2 =>
      simp only [hp]
      exact iff_of_false (fun hcontra => hwne e2 (Option.some.inj hcontra))
        (not_not_intro hex)
    | none =>
      simp only [hp]
      exact iff_of_false (fun hcontra => Option.noConfusion hcontra) (not_not_intro hex)
  | false =>
    rw [if_neg (by simp)]
    refine iff_of_true rfl (fun hex => ?_)
    rw [(goContains_exists a env.validFFISEmail).mpr hex] at hgc
    cases hgc

/-- Witness for C4 at a strict substring of the address. -/
theorem sender_validation_witness :
    ((processEmailA ⟨false⟩ ⟨"ffis.org".data, "b".data⟩ svcFixture emailSmall).1 =
        some (.wrapped "Origin email address does not match FFIS address".data
          .invalidEmailAddress)
      ↔ ¬ ∃ pre post, "fake@ffis.org".data = pre ++ "ffis.org".data ++ post) :=
  sender_validation_spec ⟨false⟩ ⟨"ffis.org".data, "b".data⟩ svcFixture emailSmall
    msgSmall "fake@ffis.org".data "sources/2023/4/24/ffis/raw.eml".data rfl rfl

/-- C10: sender validation examines only the parsed addr-spec, never
the display name: a message whose display name contains the
allow-listed substring but whose address does not fails validation, in
both implementations. -/
theorem display_name_spec (ctx : Ctx) (env : Env) (svc : S3Svc) (b : Str)
    (msg : GoMessage) (nm addr : Str) (y m d : Nat)
    (hm : mailReadMessage b = .ok msg)
    (hp : ParseAddress (headerGet msg.header "From".data) = .ok ⟨nm, addr⟩)
    (hd : ParseDate (headerGet msg.header "Date".data) = .ok (y, m, d))
    (hname : goContains nm env.validFFISEmail = true)
    (haddr : goContains addr env.validFFISEmail = false) :
    (processEmailA ctx env svc b).1 =
      some (.wrapped "Origin email address does not match FFIS address".data
        .invalidEmailAddress)
    ∧ (processEmailB ctx env svc b).1 =
      some (.wrapped "Origin email address does not match FFIS address".data
        .invalidEmailAddress) := by
  constructor
  · simp only [processEmailA, readAll, hm, processHeader, hp, hd]
    rw [if_neg (by simp [haddr])]
  · simp only [processEmailB, hm, hp]
    rw [if_neg (by simp [haddr])]

/-- Witness for C10 at a concrete display-name email. -/
theorem display_name_witness :
    (processEmailA ⟨false⟩ envFixture svcFixture emailDisplayName).1 =
      some (.wrapped "Origin email address does not match FFIS address".data
        .invalidEmailAddress)
    ∧ (processEmailB ⟨false⟩ envFixture svcFixture emailDisplayName).1 =
      some (.wrapped "Origin email address does not match FFIS address".data
        .invalidEmailAddress) :=
  display_name_spec ⟨false⟩ envFixture svcFixture emailDisplayName msgDisplayName
    "fake@ffis.org".data "other@nowhere.org".data 2023 4 24 rfl rfl rfl rfl rfl

/-- Counterexample for C9: on an email with both a malformed Date
header and a disallowed sender, the reader variant reports the date
parse error while the bytes variant reports the sender validation
error, so the two implementations do not produce the same outcome. -/
theorem processEmail_divergence_cex :
    (processEmailA ⟨false⟩ envFixture svcFixture emailBadDateBadSender).1 =
      some (.wrapped "Error extracting data from email header".data .dateParseErr)
    ∧ (processEmailB ⟨false⟩ envFixture svcFixture emailBadDateBadSender).1 =
      some (.wrapped "Origin email address does not match FFIS address".data
        .invalidEmailAddress)
    ∧ (processEmailA ⟨false⟩ envFixture svcFixture emailBadDateBadSender).1 ≠
      (processEmailB ⟨false⟩ envFixture svcFixture emailBadDateBadSender).1 :=
  ⟨rfl, rfl, by decide⟩

/-- C9 (amended): the two implementations of processEmail agree on
success/failure classification for every input and attempt writes to
the same bucket/key targets; they differ in the reported error when
both the Date header and the sender are invalid, and in the written
bytes (the reader variant uploads the exhausted reader's empty
remainder). -/
theorem processEmail_equivalence_spec (ctx : Ctx) (env : Env) (svc : S3Svc) (b : Str) :
    (processEmailA ctx env svc b).1.isNone = (processEmailB ctx env svc b).1.isNone
    ∧ putTargets (processEmailA ctx env svc b).2 =
      putTargets (processEmailB ctx env svc b).2 := by
  cases hmr : mailReadMessage b with
  | error e => simp [processEmailA, processEmailB, readAll, hmr, putTargets]
  | ok email =>
    cases hpa : ParseAddress (headerGet email.header "From".data) with
    | error e =>
      simp [processEmailA, processEmailB, readAll, processHeader, hmr, hpa, putTargets]
    | ok mailFrom =>
      cases hpd : ParseDate (headerGet email.header "Date".data) with
      | error e =>
        cases hgc : goContains mailFrom.address env.validFFISEmail with
        | true =>
          simp [processEmailA, processEmailB, readAll, processHeader, hmr, hpa, hpd, hgc,
            putTargets]
        | false =>
          simp [processEmailA, processEmailB, readAll, processHeader, hmr, hpa, hpd, hgc,
            putTargets]
      | ok ymd =>
        obtain ⟨y, m, d⟩ := ymd
        cases hgc : goContains mailFrom.address env.validFFISEmail with
        | false =>
          simp [processEmailA, processEmailB, readAll, processHeader, hmr, hpa, hpd, hgc,
            putTargets]
        | true =>
          cases hc : ctx.canceled with
          | true =>
            simp [processEmailA, processEmailB, readAll, processHeader, UploadS3Object,
              goPutObject, hmr, hpa, hpd, hgc, hc, putTargets]
          | false =>
            cases hput : svc.putSpec env.sourceDataBucket (s3ObjectKeyFor y m d) with
            | some e =>
              simp [processEmailA, processEmailB, readAll, processHeader, UploadS3Object,
                goPutObject, hmr, hpa, hpd, hgc, hc, hput, putTargets]
            | none =>
              simp [processEmailA, processEmailB, readAll, processHeader, UploadS3Object,
                goPutObject, hmr, hpa, hpd, hgc, hc, hput, putTargets]

/-- Witness for C6 at a one-record batch with a canceled context. -/
theorem canceled_tasks_witness :
    ∃ es, (handleS3EventWithConfig ⟨true⟩ envFixture svcFixture [recFixture]).1 = some es
      ∧ es.length = [recFixture].length ∧ es ≠ []
      ∧ ∀ e ∈ es, e.chainCanceled = true :=
  canceled_tasks_spec ⟨true⟩ envFixture svcFixture [recFixture] rfl (by simp)

/-- Witness for C7 at a not-found fetch. -/
theorem fetch_error_witness :
    handleRecordA ⟨false⟩ envFixture svcNotFound recFixture =
      (some (.notFound recFixture.bucket recFixture.key),
        [.fetch recFixture.bucket recFixture.key]) :=
  fetch_error_spec ⟨false⟩ envFixture svcNotFound recFixture
    (.notFound recFixture.bucket recFixture.key) rfl

/-- C2 (evaluation at the failing input): on the test fixture email the
reader-variant processEmail succeeds but its single storage write
carries the empty byte sequence — the already-consumed reader — while
the bytes variant writes the full original content. -/
theorem upload_empty_body_bug :
    (processEmailA ⟨false⟩ envFixture svcFixture emailFixture).1 = none
    ∧ putBodies (processEmailA ⟨false⟩ envFixture svcFixture emailFixture).2 = [[]]
    ∧ putBodies (processEmailB ⟨false⟩ envFixture svcFixture emailFixture).2 = [emailFixture]
    ∧ emailFixture ≠ [] :=
  ⟨rfl, rfl, rfl, by decide⟩

/-- C5: in the URL-extraction pipeline, a message with no plaintext
part fails with NoPlaintextPartError; zero matches of the URL pattern
fail with NoMatchesFoundError; two or more matches fail with
MultipleFoundError; exactly one match is forwarded as the queue-send
body. -/
theorem url_extraction_spec (findMatches : Str → List Str) (msg : ParsedMessageB) :
    (msg.plaintext = none →
      extractAndEnqueue findMatches msg = (.error .noPlaintext, []))
    ∧ (∀ body, msg.plaintext = some body → findMatches body = [] →
      extractAndEnqueue findMatches msg = (.error .noMatchesFound, []))
    ∧ (∀ body url, msg.plaintext = some body → findMatches body = [url] →
      extractAndEnqueue findMatches msg = (.ok url, [.queueSend url]))
    ∧ (∀ body, msg.plaintext = some body → 2 ≤ (findMatches body).length →
      extractAndEnqueue findMatches msg = (.error .multipleFound, [])) := by
  refine ⟨?_, ?_, ?_, ?_⟩
  · intro h; simp [extractAndEnqueue, h]
  · intro body h hf; simp [extractAndEnqueue, h, hf]
  · intro body url h hf; simp [extractAndEnqueue, h, hf]
  · intro body h hlen
    rcases hf : findMatches body with - | ⟨a, - | ⟨c, t2⟩⟩
    · rw [hf] at hlen; simp at hlen
    · rw [hf] at hlen; simp at hlen
    · simp [extractAndEnqueue, h, hf]

/-- Witness for C5 at a single-match body. -/
theorem url_extraction_witness :
    extractAndEnqueue findMatchesFixture ⟨some "body".data⟩ =
      (.ok "https://mcusercontent.com/123456/files/file-01.xlsx".data,
        [.queueSend "https://mcusercontent.com/123456/files/file-01.xlsx".data]) :=
  (url_extraction_spec findMatchesFixture ⟨some "body".data⟩).2.2.1 "body".data
    "https://mcusercontent.com/123456/files/file-01.xlsx".data rfl rfl

/-- Witness for C1 at a concrete one-record batch. -/
theorem handle_aggregate_witness :
    ((handleS3EventWithConfig ⟨false⟩ envFixture svcFixture [recFixture]).1 = none ↔
      [recFixture].countP
        (fun rec => ((recordTask ⟨false⟩ envFixture svcFixture rec).1).isSome) = 0)
    ∧ aggErrCount (handleS3EventWithConfig ⟨false⟩ envFixture svcFixture [recFixture]).1 =
      [recFixture].countP
        (fun rec => ((recordTask ⟨false⟩ envFixture svcFixture rec).1).isSome)
    ∧ succPutCount (handleS3EventWithConfig ⟨false⟩ envFixture svcFixture [recFixture]).2 =
      [recFixture].length - [recFixture].countP
        (fun rec => ((recordTask ⟨false⟩ envFixture svcFixture rec).1).isSome) :=
  handleS3Event_aggregate_spec ⟨false⟩ envFixture svcFixture [recFixture]
